import Mathlib

/-!
Shallow embedding of the core extraction and pagination pipeline of
`src/extractors/graphql_extractor.py` (class `InstagramGraphQLExtractor`).

Modelling conventions:
* Python dict fields that may be absent are `Option`; `dict.get(k, d)` becomes
  `Option.getD`.
* Python string truthiness (`if url:`) is modelled by `optTruthy`: `None` and
  the empty string are falsy, every other string is truthy.
* Integer type codes (`media_type`, rendition `type`) are `Int`.
* The network fetch in `fetch_user_posts` is abstracted as a function
  `fetch : Nat → Option String → FetchOutcome` giving the outcome of the
  request issued on a given page number with a given cursor; `.fail` covers a
  raised exception or a non-200 status (both hit the same `break`).
-/

/-- Truthiness of an optional string, as Python evaluates `if s:`:
`None` and `""` are falsy. -/
def optTruthy : Option String → Bool
  | none => false
  | some s => s ≠ ""

/-- One entry of `image_versions2.candidates`: a dict with `url`, `width`,
`height`, any of which may be absent. -/
structure Candidate where
  url : Option String
  width : Option Int
  height : Option Int
deriving DecidableEq, Repr

/-- One entry of `video_versions`: a dict with `type`, `url`, `width`,
`height` (`vtype` embeds the `type` key). -/
structure VideoVersion where
  vtype : Option Int
  url : Option String
  width : Option Int
  height : Option Int
deriving DecidableEq, Repr

/-- A post node as read by the extractor: `media_type` (absent defaults to 1),
`pk`, `image_versions2.candidates` (flattened to `image_candidates`; an absent
`image_versions2` or `candidates` key reads as `[]`), `video_versions`,
`carousel_media`, `has_audio` (absent defaults to `False`), `product_type`. -/
inductive Node where
  | mk (media_type : Option Int) (pk : Option String)
       (image_candidates : List Candidate)
       (video_versions : List VideoVersion)
       (carousel_media : List Node)
       (has_audio : Bool)
       (product_type : Option String)

/-- Field accessor for `media_type`. -/
def Node.media_type : Node → Option Int
  | .mk a _ _ _ _ _ _ => a

/-- Field accessor for `pk`. -/
def Node.pk : Node → Option String
  | .mk _ a _ _ _ _ _ => a

/-- Field accessor for `image_versions2.candidates`. -/
def Node.image_candidates : Node → List Candidate
  | .mk _ _ a _ _ _ _ => a

/-- Field accessor for `video_versions`. -/
def Node.video_versions : Node → List VideoVersion
  | .mk _ _ _ a _ _ _ => a

/-- Field accessor for `carousel_media`. -/
def Node.carousel_media : Node → List Node
  | .mk _ _ _ _ a _ _ => a

/-- Field accessor for `has_audio`. -/
def Node.has_audio : Node → Bool
  | .mk _ _ _ _ _ a _ => a

/-- Field accessor for `product_type`. -/
def Node.product_type : Node → Option String
  | .mk _ _ _ _ _ _ a => a

/-- A raw post as returned by the API: `post.get('node', {})` always yields a
node (an absent `node` key reads as a node with all defaults). -/
structure RawPost where
  node : Node

/-- Settings dict consumed by the extractor: `download_videos` (Python default
`True`) and `video_quality` (Python default `'highest'`), both read with those
defaults at each use site, so we store the resolved values. -/
structure VideoSettings where
  download_videos : Bool
  video_quality : String

/-- Normalized media descriptor, the dict built by `_extract_image_data` /
`_extract_video_data`.  The two dict shapes (`'type': 'image'` with width and
height, versus `'type': 'video'` with rendition type, audio, product type and
thumbnail) become two constructors sharing `url`, `post_id`, `post_index`,
`media_index`. -/
inductive MediaDescriptor where
  | image (url : Option String) (post_id : String)
      (width height : Option Int) (post_index media_index : Nat)
  | video (url : Option String) (post_id : String) (video_type : Option Int)
      (width height : Option Int) (has_audio : Bool) (product_type : String)
      (thumbnail_url : Option String) (post_index media_index : Nat)
deriving DecidableEq, Repr

/-- The `url` entry of a descriptor. -/
def MediaDescriptor.url : MediaDescriptor → Option String
  | .image u _ _ _ _ _ => u
  | .video u _ _ _ _ _ _ _ _ _ => u

/-- The `post_index` entry of a descriptor. -/
def MediaDescriptor.post_index : MediaDescriptor → Nat
  | .image _ _ _ _ p _ => p
  | .video _ _ _ _ _ _ _ _ p _ => p

/-- The `media_index` entry of a descriptor. -/
def MediaDescriptor.media_index : MediaDescriptor → Nat
  | .image _ _ _ _ _ m => m
  | .video _ _ _ _ _ _ _ _ _ m => m

/-- The manifest returned by `extract_media_from_posts`:
`{'images': ..., 'videos': ...}`. -/
structure MediaManifest where
  images : List MediaDescriptor
  videos : List MediaDescriptor
deriving DecidableEq, Repr

/-- Embeds `detect_media_type`: `post_node.get('media_type', 1)` looked up in
`{1: 'image', 2: 'video', 8: 'carousel'}` with default `'unknown'`. -/
def detect_media_type (post_node : Node) : String :=
  let media_type := post_node.media_type.getD 1
  if media_type = 1 then "image"
  else if media_type = 2 then "video"
  else if media_type = 8 then "carousel"
  else "unknown"

/-- The fixed priority table of `select_best_video_quality`, including the
`priority.get(preference, [103, 102, 101])` fallback for unknown keys. -/
def priorityFor (preference : String) : List Int :=
  if preference = "highest" then [103, 102, 101]
  else if preference = "medium" then [102, 103, 101]
  else if preference = "lowest" then [101, 102, 103]
  else [103, 102, 101]

/-- The `for type_id in priority[...]` loop body of
`select_best_video_quality`: for each code in order, return the first
rendition carrying it (`next((v for v in video_versions if v.get('type') ==
type_id), None)`). -/
def selectLoop (video_versions : List VideoVersion) : List Int → Option VideoVersion
  | [] => none
  | type_id :: rest =>
    match video_versions.find? (fun v => v.vtype = some type_id) with
    | some v => some v
    | none => selectLoop video_versions rest

/-- Embeds `select_best_video_quality`: scan the preference's priority list;
if no code matches, fall back to
`video_versions[0] if video_versions else None`. -/
def select_best_video_quality (video_versions : List VideoVersion)
    (preference : String) : Option VideoVersion :=
  match selectLoop video_versions (priorityFor preference) with
  | some v => some v
  | none => video_versions.head?

/-- Embeds `_extract_image_data`: `None` when the candidate list is empty,
else a descriptor built from `candidates[0]`. -/
def extract_image_data (node : Node) (post_index : Nat)
    (media_index : Nat := 1) : Option MediaDescriptor :=
  match node.image_candidates with
  | [] => none
  | best_image :: _ =>
    some (.image best_image.url (node.pk.getD (toString post_index))
      best_image.width best_image.height post_index media_index)

/-- Embeds `_extract_video_data`: `None` when `video_versions` is empty or the
selector yields none; otherwise a descriptor from the selected rendition, with
the thumbnail taken from the first image candidate's `url` if present. -/
def extract_video_data (node : Node) (post_index : Nat)
    (video_settings : VideoSettings) (media_index : Nat := 1) :
    Option MediaDescriptor :=
  match node.video_versions with
  | [] => none
  | _ :: _ =>
    match select_best_video_quality node.video_versions
        video_settings.video_quality with
    | none => none
    | some best_video =>
      let thumbnail_url := node.image_candidates.head?.bind Candidate.url
      some (.video best_video.url (node.pk.getD (toString post_index))
        best_video.vtype best_video.width best_video.height
        node.has_audio (node.product_type.getD "feed") thumbnail_url
        post_index media_index)

/-- The inner `for media_index, carousel_item in enumerate(carousel_media, 1)`
loop of `extract_media_from_posts`: classify each child and append to the
image or video accumulator; children of any other kind contribute nothing but
still advance `media_index`. -/
def carouselLoop (video_settings : VideoSettings) (post_index : Nat) :
    List Node → Nat → List MediaDescriptor × List MediaDescriptor
  | [], _ => ([], [])
  | carousel_item :: rest, media_index =>
    let tail := carouselLoop video_settings post_index rest (media_index + 1)
    let carousel_type := detect_media_type carousel_item
    if carousel_type = "image" then
      match extract_image_data carousel_item post_index media_index with
      | some d => (d :: tail.1, tail.2)
      | none => tail
    else if carousel_type = "video" ∧ video_settings.download_videos then
      match extract_video_data carousel_item post_index video_settings
          media_index with
      | some d => (tail.1, d :: tail.2)
      | none => tail
    else tail

/-- The per-post branch of `extract_media_from_posts`: the image / video /
carousel `elif` chain.  In the typed embedding every field access is total, so
the `except` arm (which merely advances `post_index`, as the loop below also
does) is unreachable. -/
def processPost (node : Node) (post_index : Nat)
    (video_settings : VideoSettings) :
    List MediaDescriptor × List MediaDescriptor :=
  let media_type := detect_media_type node
  if media_type = "image" then
    match extract_image_data node post_index with
    | some d => ([d], [])
    | none => ([], [])
  else if media_type = "video" ∧ video_settings.download_videos then
    match extract_video_data node post_index video_settings with
    | some d => ([], [d])
    | none => ([], [])
  else if media_type = "carousel" then
    carouselLoop video_settings post_index node.carousel_media 1
  else ([], [])

/-- The `for post in posts` loop of `extract_media_from_posts`: `post_index`
starts at 1 and advances for every post, whatever the post contributed. -/
def extractLoop (video_settings : VideoSettings) :
    List RawPost → Nat → List MediaDescriptor × List MediaDescriptor
  | [], _ => ([], [])
  | post :: rest, post_index =>
    let here := processPost post.node post_index video_settings
    let tail := extractLoop video_settings rest (post_index + 1)
    (here.1 ++ tail.1, here.2 ++ tail.2)

/-- The `for item in media_list` loop of `_remove_duplicates`, with the
`seen_urls` set threaded explicitly: an item is appended only when its url is
truthy and unseen (`if url and url not in seen_urls`). -/
def removeDupAux : List MediaDescriptor → List String → List MediaDescriptor
  | [], _ => []
  | item :: rest, seen_urls =>
    match item.url with
    | some url =>
      if url ≠ "" ∧ url ∉ seen_urls then
        item :: removeDupAux rest (url :: seen_urls)
      else removeDupAux rest seen_urls
    | none => removeDupAux rest seen_urls

/-- Embeds `_remove_duplicates`, starting from an empty `seen_urls`. -/
def remove_duplicates (media_list : List MediaDescriptor) :
    List MediaDescriptor :=
  removeDupAux media_list []

/-- Embeds `extract_media_from_posts`: run the post loop from `post_index = 1`
and dedupe each list. -/
def extract_media_from_posts (posts : List RawPost)
    (video_settings : VideoSettings) : MediaManifest :=
  let acc := extractLoop video_settings posts 1
  ⟨remove_duplicates acc.1, remove_duplicates acc.2⟩

/-- The truthy urls of a descriptor list, in order: the url values that pass
Python's `if url:` test. -/
def truthyUrls (xs : List MediaDescriptor) : List String :=
  xs.filterMap (fun x => match x.url with
    | some u => if u = "" then none else some u
    | none => none)

/-- First-occurrence deduplication of a string list relative to an
already-seen set: the reference reading of the §4.4 policy, used to state
what `_remove_duplicates` keeps and in which order. -/
def dedupFirst : List String → List String → List String
  | [], _ => []
  | u :: us, seen =>
    if u ∈ seen then dedupFirst us seen else u :: dedupFirst us (u :: seen)

/-- The url of the first image candidate of a node, if any: what
`_extract_image_data` puts in the `url` slot when it emits a descriptor. -/
def firstImageUrl (node : Node) : Option String :=
  node.image_candidates.head?.bind Candidate.url

/-- The url of the rendition `_extract_video_data` would select for a node
under the given settings, if any. -/
def selectedVideoUrl (video_settings : VideoSettings) (node : Node) :
    Option String :=
  (select_best_video_quality node.video_versions
    video_settings.video_quality).bind VideoVersion.url

/-- Positions (1-based, counted from `start`) of the children of a carousel
that classify as the given kind. -/
def kindPositions (kind : String) : List Node → Nat → List Nat
  | [], _ => []
  | c :: cs, i =>
    if detect_media_type c = kind then i :: kindPositions kind cs (i + 1)
    else kindPositions kind cs (i + 1)

/-- The urls the image children of a carousel would contribute, in child
order. -/
def carouselImageUrls (children : List Node) : List String :=
  children.filterMap (fun c =>
    if detect_media_type c = "image" then firstImageUrl c else none)

/-- The urls the video children of a carousel would contribute under the given
settings, in child order. -/
def carouselVideoUrls (video_settings : VideoSettings)
    (children : List Node) : List String :=
  children.filterMap (fun c =>
    if detect_media_type c = "video" then selectedVideoUrl video_settings c
    else none)

/-- The carousel-expanded media count of a post sequence: carousels count
their children, every other post counts 1. -/
def expandedCount (posts : List RawPost) : Nat :=
  (posts.map (fun post =>
    if detect_media_type post.node = "carousel"
    then post.node.carousel_media.length else 1)).sum

/-- Sample image candidate used in concrete witnesses. -/
def imgCand (u : String) : Candidate := ⟨some u, some 1080, some 1350⟩

/-- Sample single-image post node. -/
def imageNode (u : String) : Node :=
  .mk (some 1) (some "pk1") [imgCand u] [] [] false none

/-- Sample single-video post node with one rendition of type 103. -/
def videoNode (u : String) : Node :=
  .mk (some 2) (some "pk2") [] [⟨some 103, some u, some 640, some 360⟩] []
    true (some "clips")

/-- Sample node with an unrecognized media-type code. -/
def unknownNode : Node := .mk (some 99) none [] [] [] false none

/-- Sample node classified as image but with an empty candidate list. -/
def emptyImageNode : Node := .mk (some 1) none [] [] [] false none

/-- Sample carousel node over the given children. -/
def carouselNode (children : List Node) : Node :=
  .mk (some 8) (some "car") [] [] children false none

/-- Sample node with no `media_type` field at all. -/
def noTypeNode (u : String) : Node :=
  .mk none none [imgCand u] [] [] false none

/-- Settings with videos enabled at the default quality. -/
def sAll : VideoSettings := ⟨true, "highest"⟩

/-- The `page_info` envelope of a page response: `has_next_page` (read with
default `False`) and `end_cursor` (may be absent). -/
structure PageInfo where
  has_next_page : Bool
  end_cursor : Option String

/-- The fields `fetch_user_posts` reads from a decoded 200 response:
`data.xdt_api__v1__feed__user_timeline_graphql_connection.edges` and
`...page_info`, every missing level defaulting to `{}` / `[]`.  A response
missing those envelope fields therefore reads as `edges = []`,
`has_next_page = false`, `end_cursor = none`. -/
structure ResponseBody where
  edges : List RawPost
  page_info : PageInfo

/-- Outcome of one page request as `fetch_user_posts` observes it: `.fail`
covers both a raised exception and a non-200 status (the two `break` arms that
skip the envelope), `.ok` carries the decoded body. -/
inductive FetchOutcome where
  | fail
  | ok (body : ResponseBody)

/-- Python truthiness of the cursor in `if not has_next_page or not
after_cursor`: an absent or empty-string cursor stops pagination. -/
def cursorFalsy : Option String → Bool
  | none => true
  | some s => s = ""

/-- The `while page <= max_pages` loop of `fetch_user_posts`, with the number
of remaining permitted pages as fuel (`remaining = max_pages - page + 1`), the
current page number, cursor and accumulator explicit.  The second component of
the result instruments the run with the number of page requests issued; the
first component is exactly the accumulated `all_posts` the source returns. -/
def fetchAux (fetch : Nat → Option String → FetchOutcome) :
    Nat → Nat → Option String → List RawPost → List RawPost × Nat
  | 0, _, _, all_posts => (all_posts, 0)
  | remaining + 1, page, after_cursor, all_posts =>
    match fetch page after_cursor with
    | .fail => (all_posts, 1)
    | .ok body =>
      if body.edges.isEmpty then (all_posts, 1)
      else
        let acc := all_posts ++ body.edges
        let has_next_page := body.page_info.has_next_page
        let next_cursor := body.page_info.end_cursor
        if ¬ has_next_page ∨ cursorFalsy next_cursor then (acc, 1)
        else
          let tail := fetchAux fetch remaining (page + 1) next_cursor acc
          (tail.1, tail.2 + 1)

/-- Embeds `fetch_user_posts` over an abstract fetch operation: start at
page 1 with no cursor and an empty accumulator; also report the number of
requests issued. -/
def fetch_user_posts (fetch : Nat → Option String → FetchOutcome)
    (max_pages : Nat) : List RawPost × Nat :=
  fetchAux fetch max_pages 1 none []

/-- The cursor `fetch_user_posts` holds when it issues the request for a given
page, assuming the pages before it succeeded with the given bodies: page 1 is
fetched with no cursor, page `j + 1` with page `j`'s `end_cursor`. -/
def chainCursor (body : Nat → ResponseBody) : Nat → Option String
  | 0 => none
  | 1 => none
  | j + 2 => (body (j + 1)).page_info.end_cursor

/-- Sample scripted fetch that always succeeds with one edge and always
reports another page. -/
def alwaysMore : Nat → Option String → FetchOutcome :=
  fun _ _ => .ok ⟨[⟨imageNode "page"⟩], ⟨true, some "cur"⟩⟩

/-- Sample scripted fetch that fails on every request. -/
def alwaysFail : Nat → Option String → FetchOutcome := fun _ _ => .fail

/-- Sample scripted fetch: page 1 succeeds and reports more, page 2 succeeds
with `has_next_page = false`. -/
def twoPageScript : Nat → Option String → FetchOutcome := fun page _ =>
  if page = 1 then .ok ⟨[⟨imageNode "a"⟩], ⟨true, some "c1"⟩⟩
  else .ok ⟨[⟨imageNode "b"⟩], ⟨false, none⟩⟩

/-! Lemmas about `_remove_duplicates`. -/

/-- Every element of `dedupFirst L seen` comes from `L` and was not already
seen. -/
lemma mem_dedupFirst {u : String} {L seen : List String}
    (h : u ∈ dedupFirst L seen) : u ∈ L ∧ u ∉ seen := by
  induction L generalizing seen with
  | nil => simp [dedupFirst] at h
  | cons v vs ih =>
    by_cases hv : v ∈ seen
    · rw [dedupFirst, if_pos hv] at h
      obtain ⟨h1, h2⟩ := ih h
      exact ⟨List.mem_cons_of_mem _ h1, h2⟩
    · rw [dedupFirst, if_neg hv] at h
      rcases List.mem_cons.mp h with rfl | h
      · exact ⟨List.mem_cons_self _ _, hv⟩
      · obtain ⟨h1, h2⟩ := ih h
        exact ⟨List.mem_cons_of_mem _ h1,
          fun hu => h2 (List.mem_cons_of_mem _ hu)⟩

/-- Every element of `truthyUrls xs` is a nonempty string carried by some item
of `xs`. -/
lemma mem_truthyUrls {u : String} {xs : List MediaDescriptor}
    (h : u ∈ truthyUrls xs) : u ≠ "" ∧ ∃ x ∈ xs, x.url = some u := by
  rw [truthyUrls, List.mem_filterMap] at h
  obtain ⟨x, hx, hfx⟩ := h
  cases hu : x.url with
  | none => simp [hu] at hfx
  | some v =>
    have hfx2 : (if v = "" then none else some v) = some u := by
      rw [hu] at hfx; exact hfx
    by_cases hv : v = ""
    · simp [hv] at hfx2
    · rw [if_neg hv] at hfx2
      obtain rfl : v = u := Option.some.inj hfx2
      exact ⟨hv, x, hx, hu⟩

/-- Every item the dedup loop keeps carries a truthy url. -/
lemma mem_removeDupAux_truthy {x : MediaDescriptor}
    {xs : List MediaDescriptor} {seen : List String}
    (h : x ∈ removeDupAux xs seen) : ∃ u, x.url = some u ∧ u ≠ "" := by
  induction xs generalizing seen with
  | nil => simp [removeDupAux] at h
  | cons y rest ih =>
    cases hu : y.url with
    | none =>
      simp only [removeDupAux, hu] at h
      exact ih h
    | some u =>
      simp only [removeDupAux, hu] at h
      by_cases hc : u ≠ "" ∧ u ∉ seen
      · rw [if_pos hc] at h
        rcases List.mem_cons.mp h with rfl | h
        · exact ⟨u, hu, hc.1⟩
        · exact ih h
      · rw [if_neg hc] at h
        exact ih h

/-- The dedup loop never lengthens its input. -/
lemma length_removeDupAux_le (xs : List MediaDescriptor)
    (seen : List String) : (removeDupAux xs seen).length ≤ xs.length := by
  induction xs generalizing seen with
  | nil => simp [removeDupAux]
  | cons y rest ih =>
    cases hu : y.url with
    | none =>
      simp only [removeDupAux, hu]
      exact (ih seen).trans (Nat.le_succ _)
    | some u =>
      simp only [removeDupAux, hu]
      by_cases hc : u ≠ "" ∧ u ∉ seen
      · rw [if_pos hc]
        simpa using Nat.succ_le_succ (ih (u :: seen))
      · rw [if_neg hc]
        exact (ih seen).trans (Nat.le_succ _)

/-- The dedup loop is idempotent for any starting seen-set. -/
lemma removeDupAux_idem (xs : List MediaDescriptor) (seen : List String) :
    removeDupAux (removeDupAux xs seen) seen = removeDupAux xs seen := by
  induction xs generalizing seen with
  | nil => rfl
  | cons y rest ih =>
    cases hu : y.url with
    | none => simp only [removeDupAux, hu]; exact ih seen
    | some u =>
      simp only [removeDupAux, hu]
      by_cases hc : u ≠ "" ∧ u ∉ seen
      · rw [if_pos hc]
        simp only [removeDupAux, hu]
        rw [if_pos hc]
        rw [ih (u :: seen)]
      · rw [if_neg hc]
        exact ih seen

/-- The urls kept by the dedup loop are exactly the first-occurrence
deduplication of the truthy urls of the input. -/
lemma removeDupAux_urls (xs : List MediaDescriptor) (seen : List String) :
    truthyUrls (removeDupAux xs seen) = dedupFirst (truthyUrls xs) seen := by
  induction xs generalizing seen with
  | nil => rfl
  | cons y rest ih =>
    cases hu : y.url with
    | none =>
      simp only [removeDupAux, hu, truthyUrls, List.filterMap_cons]
      exact ih seen
    | some u =>
      by_cases he : u = ""
      · subst he
        have h1 : removeDupAux (y :: rest) seen = removeDupAux rest seen := by
          have hcond : ¬ ((("" : String) ≠ "") ∧ ("" : String) ∉ seen) := by
            simp
          simp only [removeDupAux, hu, if_neg hcond]
        have h2 : truthyUrls (y :: rest) = truthyUrls rest := by
          simp [truthyUrls, List.filterMap_cons, hu]
        rw [h1, h2]
        exact ih seen
      · have htr : truthyUrls (y :: rest) = u :: truthyUrls rest := by
          simp only [truthyUrls, List.filterMap_cons, hu, if_neg he]
        by_cases hs : u ∈ seen
        · have : ¬ (u ≠ "" ∧ u ∉ seen) := by simp [hs]
          simp only [removeDupAux, hu, if_neg this, htr]
          rw [dedupFirst, if_pos hs]
          exact ih seen
        · have hc : u ≠ "" ∧ u ∉ seen := ⟨he, hs⟩
          simp only [removeDupAux, hu, if_pos hc, htr]
          rw [dedupFirst, if_neg hs]
          have : truthyUrls (y :: removeDupAux rest (u :: seen)) =
              u :: truthyUrls (removeDupAux rest (u :: seen)) := by
            simp only [truthyUrls, List.filterMap_cons, hu, if_neg he]
          rw [this, ih (u :: seen)]

/-- The dedup loop keeps exactly the first item bearing each distinct truthy
url, in first-occurrence order. -/
lemma removeDupAux_eq_filterMap (xs : List MediaDescriptor)
    (seen : List String) :
    removeDupAux xs seen =
      (dedupFirst (truthyUrls xs) seen).filterMap
        (fun u => xs.find? (fun y => y.url = some u)) := by
  induction xs generalizing seen with
  | nil => rfl
  | cons x rest ih =>
    cases hu : x.url with
    | none =>
      have htr : truthyUrls (x :: rest) = truthyUrls rest := by
        simp only [truthyUrls, List.filterMap_cons, hu]
      have hstep : ∀ u, (x :: rest).find? (fun y => y.url = some u) =
          rest.find? (fun y => y.url = some u) := by
        intro u
        apply List.find?_cons_of_neg
        simp [hu]
      calc removeDupAux (x :: rest) seen
          = removeDupAux rest seen := by simp only [removeDupAux, hu]
        _ = (dedupFirst (truthyUrls rest) seen).filterMap
              (fun u => rest.find? (fun y => y.url = some u)) := ih seen
        _ = (dedupFirst (truthyUrls rest) seen).filterMap
              (fun u => (x :: rest).find? (fun y => y.url = some u)) :=
            (List.filterMap_congr (fun u _ => (hstep u).symm))
        _ = (dedupFirst (truthyUrls (x :: rest)) seen).filterMap
              (fun u => (x :: rest).find? (fun y => y.url = some u)) := by
            rw [htr]
    | some u =>
      by_cases he : u = ""
      · subst he
        have htr : truthyUrls (x :: rest) = truthyUrls rest := by
          simp [truthyUrls, List.filterMap_cons, hu]
        have hcond : ¬ ((("" : String) ≠ "") ∧ ("" : String) ∉ seen) := by
          simp
        have hstep : ∀ v ∈ dedupFirst (truthyUrls rest) seen,
            (x :: rest).find? (fun y => y.url = some v) =
              rest.find? (fun y => y.url = some v) := by
          intro v hv
          have hne : v ≠ "" := (mem_truthyUrls (mem_dedupFirst hv).1).1
          apply List.find?_cons_of_neg
          simp only [hu, decide_eq_true_eq]
          intro hvv
          exact hne (Option.some.inj hvv).symm
        calc removeDupAux (x :: rest) seen
            = removeDupAux rest seen := by
              simp only [removeDupAux, hu, if_neg hcond]
          _ = (dedupFirst (truthyUrls rest) seen).filterMap
                (fun v => rest.find? (fun y => y.url = some v)) := ih seen
          _ = (dedupFirst (truthyUrls rest) seen).filterMap
                (fun v => (x :: rest).find? (fun y => y.url = some v)) :=
              (List.filterMap_congr (fun v hv => (hstep v hv).symm))
          _ = (dedupFirst (truthyUrls (x :: rest)) seen).filterMap
                (fun v => (x :: rest).find? (fun y => y.url = some v)) := by
              rw [htr]
      · have htr : truthyUrls (x :: rest) = u :: truthyUrls rest := by
          simp only [truthyUrls, List.filterMap_cons, hu, if_neg he]
        by_cases hs : u ∈ seen
        · have hcond : ¬ (u ≠ "" ∧ u ∉ seen) := by simp [hs]
          have hstep : ∀ v ∈ dedupFirst (truthyUrls rest) seen,
              (x :: rest).find? (fun y => y.url = some v) =
                rest.find? (fun y => y.url = some v) := by
            intro v hv
            have hv2 : v ∉ seen := (mem_dedupFirst hv).2
            apply List.find?_cons_of_neg
            simp only [hu, decide_eq_true_eq]
            intro hvv
            exact hv2 ((Option.some.inj hvv) ▸ hs)
          calc removeDupAux (x :: rest) seen
              = removeDupAux rest seen := by
                simp only [removeDupAux, hu, if_neg hcond]
            _ = (dedupFirst (truthyUrls rest) seen).filterMap
                  (fun v => rest.find? (fun y => y.url = some v)) := ih seen
            _ = (dedupFirst (truthyUrls rest) seen).filterMap
                  (fun v => (x :: rest).find? (fun y => y.url = some v)) :=
                (List.filterMap_congr (fun v hv => (hstep v hv).symm))
            _ = (dedupFirst (truthyUrls (x :: rest)) seen).filterMap
                  (fun v => (x :: rest).find? (fun y => y.url = some v)) := by
                rw [htr, dedupFirst, if_pos hs]
        · have hc : u ≠ "" ∧ u ∉ seen := ⟨he, hs⟩
          have hfx : (x :: rest).find? (fun y => y.url = some u) = some x := by
            apply List.find?_cons_of_pos
            simp [hu]
          have hstep : ∀ v ∈ dedupFirst (truthyUrls rest) (u :: seen),
              (x :: rest).find? (fun y => y.url = some v) =
                rest.find? (fun y => y.url = some v) := by
            intro v hv
            have hv2 : v ∉ u :: seen := (mem_dedupFirst hv).2
            apply List.find?_cons_of_neg
            simp only [hu, decide_eq_true_eq]
            intro hvv
            exact hv2 ((Option.some.inj hvv) ▸ List.mem_cons_self u seen)
          calc removeDupAux (x :: rest) seen
              = x :: removeDupAux rest (u :: seen) := by
                simp only [removeDupAux, hu, if_pos hc]
            _ = x :: (dedupFirst (truthyUrls rest) (u :: seen)).filterMap
                  (fun v => rest.find? (fun y => y.url = some v)) := by
                rw [ih (u :: seen)]
            _ = x :: (dedupFirst (truthyUrls rest) (u :: seen)).filterMap
                  (fun v => (x :: rest).find? (fun y => y.url = some v)) := by
                rw [List.filterMap_congr (fun v hv => (hstep v hv).symm)]
            _ = (dedupFirst (truthyUrls (x :: rest)) seen).filterMap
                  (fun v => (x :: rest).find? (fun y => y.url = some v)) := by
                rw [htr, dedupFirst, if_neg hs, List.filterMap_cons, hfx]

/-! Lemmas about `select_best_video_quality`. -/

/-- The priority scan finds nothing over an empty rendition list. -/
lemma selectLoop_nil (tids : List Int) :
    selectLoop ([] : List VideoVersion) tids = none := by
  induction tids with
  | nil => rfl
  | cons t r ih =>
    rw [selectLoop, List.find?_nil]
    exact ih

/-- The priority scan, declaratively: it returns the first rendition carrying
the earliest priority code present among the renditions, and nothing when no
priority code is present. -/
lemma selectLoop_eq (vs : List VideoVersion) (tids : List Int) :
    selectLoop vs tids =
      (tids.find? (fun t => vs.any (fun v => v.vtype = some t))).bind
        (fun tid => vs.find? (fun v => v.vtype = some tid)) := by
  induction tids with
  | nil => rfl
  | cons t rest ih =>
    rw [selectLoop]
    cases hf : vs.find? (fun v => v.vtype = some t) with
    | some v =>
      have hsome : (vs.find? (fun v => v.vtype = some t)).isSome := by
        rw [hf]; rfl
      have hany : vs.any (fun v => v.vtype = some t) = true :=
        List.any_eq_true.mpr (List.find?_isSome.mp hsome)
      have hcons : (t :: rest).find?
          (fun t => vs.any (fun v => v.vtype = some t)) = some t :=
        List.find?_cons_of_pos _ hany
      simp only [hcons, Option.some_bind, hf]
    | none =>
      have hany : vs.any (fun v => v.vtype = some t) = false := by
        rw [List.any_eq_false]
        intro x hx
        exact List.find?_eq_none.mp hf x hx
      have hcons : (t :: rest).find?
          (fun t => vs.any (fun v => v.vtype = some t)) =
          rest.find? (fun t => vs.any (fun v => v.vtype = some t)) :=
        List.find?_cons_of_neg _ (by simp [hany])
      simp only [hf, hcons]
      exact ih

/-- C4: `select_best_video_quality` returns the first rendition (in input
order) whose type code is the earliest entry of the preference's priority list
present among the renditions; if no priority code is present it falls back to
the first rendition; the empty input (and only it) yields none, so the
function is total; an unrecognized preference uses the `highest` ordering
`[103, 102, 101]`. -/
theorem select_best_video_quality_spec (vs : List VideoVersion)
    (pref : String) :
    (vs = [] → select_best_video_quality vs pref = none) ∧
    (vs ≠ [] → (select_best_video_quality vs pref).isSome = true) ∧
    (∀ tid, (priorityFor pref).find?
        (fun t => vs.any (fun v => v.vtype = some t)) = some tid →
      select_best_video_quality vs pref =
        vs.find? (fun v => v.vtype = some tid)) ∧
    ((priorityFor pref).find?
        (fun t => vs.any (fun v => v.vtype = some t)) = none →
      select_best_video_quality vs pref = vs.head?) ∧
    (pref ≠ "highest" → pref ≠ "medium" → pref ≠ "lowest" →
      priorityFor pref = [103, 102, 101]) := by
  refine ⟨?_, ?_, ?_, ?_, ?_⟩
  · intro h
    subst h
    rw [select_best_video_quality, selectLoop_nil]
    rfl
  · intro hne
    rw [select_best_video_quality]
    cases hL : selectLoop vs (priorityFor pref) with
    | some v => rfl
    | none =>
      cases vs with
      | nil => exact absurd rfl hne
      | cons a l => rfl
  · intro tid htid
    rw [select_best_video_quality, selectLoop_eq, htid, Option.some_bind]
    cases hf : vs.find? (fun v => v.vtype = some tid) with
    | some v => rfl
    | none =>
      have hp : (fun t => vs.any (fun v => v.vtype = some t)) tid = true :=
        List.find?_some (p := fun t => vs.any (fun v => v.vtype = some t)) htid
      have hex := List.any_eq_true.mp hp
      have hsome := List.find?_isSome.mpr hex
      rw [hf] at hsome
      exact absurd hsome (by simp)
  · intro h0
    rw [select_best_video_quality, selectLoop_eq, h0, Option.none_bind]
  · intro h1 h2 h3
    rw [priorityFor, if_neg h1, if_neg h2, if_neg h3]

/-- Witness for C4 at a concrete input: among renditions of types 101 and
103, the `highest` preference picks the type-103 rendition. -/
theorem select_best_video_quality_spec_witness :
    select_best_video_quality
      [⟨some 101, some "lo", none, none⟩, ⟨some 103, some "hi", none, none⟩]
      "highest" = some ⟨some 103, some "hi", none, none⟩ := by
  have h := (select_best_video_quality_spec
    [⟨some 101, some "lo", none, none⟩, ⟨some 103, some "hi", none, none⟩]
    "highest").2.2.1 103 (by decide)
  rw [h]
  decide

/-- C2 counterexample: an input item lacking a url is dropped by
`_remove_duplicates`, not kept, contradicting the claim that such items are
always kept in the output. -/
theorem dedupe_urlless_dropped_cex :
    remove_duplicates [MediaDescriptor.image none "1" none none 1 1] = [] :=
  rfl

/-- C2 (amended): `_remove_duplicates` drops every item lacking a truthy url;
items with a truthy url are kept exactly at the first occurrence of that url,
in first-occurrence order of the distinct truthy urls. -/
theorem dedupe_first_occurrence_spec (xs : List MediaDescriptor) :
    remove_duplicates xs =
      (dedupFirst (truthyUrls xs) []).filterMap
        (fun u => xs.find? (fun y => y.url = some u)) ∧
    ∀ x ∈ remove_duplicates xs, ∃ u, x.url = some u ∧ u ≠ "" :=
  ⟨removeDupAux_eq_filterMap xs [], fun _ hx => mem_removeDupAux_truthy hx⟩

/-- Witness for C2's amended statement at a concrete input: a duplicate url is
kept only at its first occurrence and a url-less item is dropped. -/
theorem dedupe_first_occurrence_spec_witness :
    remove_duplicates
      [MediaDescriptor.image (some "u") "1" none none 1 1,
       MediaDescriptor.image (some "u") "2" none none 2 1,
       MediaDescriptor.image none "3" none none 3 1] =
      [MediaDescriptor.image (some "u") "1" none none 1 1] := by
  have h := (dedupe_first_occurrence_spec
      [MediaDescriptor.image (some "u") "1" none none 1 1,
       MediaDescriptor.image (some "u") "2" none none 2 1,
       MediaDescriptor.image none "3" none none 3 1]).1
  rw [h]
  decide

/-- C9: `_remove_duplicates` is idempotent, and the urls of its output are
exactly the distinct truthy urls of the input in the relative order of their
first occurrence. -/
theorem dedupe_idempotent_and_order (xs : List MediaDescriptor) :
    remove_duplicates (remove_duplicates xs) = remove_duplicates xs ∧
    truthyUrls (remove_duplicates xs) = dedupFirst (truthyUrls xs) [] :=
  ⟨removeDupAux_idem xs [], removeDupAux_urls xs []⟩

/-- Witness for C9 at a concrete input with a repeated url. -/
theorem dedupe_idempotent_and_order_witness :
    remove_duplicates (remove_duplicates
      [MediaDescriptor.image (some "a") "1" none none 1 1,
       MediaDescriptor.image (some "b") "2" none none 2 1,
       MediaDescriptor.image (some "a") "3" none none 3 1]) =
      remove_duplicates
      [MediaDescriptor.image (some "a") "1" none none 1 1,
       MediaDescriptor.image (some "b") "2" none none 2 1,
       MediaDescriptor.image (some "a") "3" none none 3 1] :=
  (dedupe_idempotent_and_order
    [MediaDescriptor.image (some "a") "1" none none 1 1,
     MediaDescriptor.image (some "b") "2" none none 2 1,
     MediaDescriptor.image (some "a") "3" none none 3 1]).1

/-- C10: a node lacking the `media_type` field classifies as `image` (the
missing code defaults to 1), not `unknown`; consequently
`extract_media_from_posts` attempts image extraction on such a node — when the
node carries a usable first candidate url, the single-post input yields an
image descriptor instead of being skipped. -/
theorem missing_media_type_treated_as_image (node : Node)
    (s : VideoSettings) (h : node.media_type = none) :
    detect_media_type node = "image" ∧
    (optTruthy (firstImageUrl node) = true →
      (extract_media_from_posts [⟨node⟩] s).images ≠ []) := by
  have hdet : detect_media_type node = "image" := by
    rw [detect_media_type, h]
    rfl
  refine ⟨hdet, ?_⟩
  intro htr
  cases hc : node.image_candidates with
  | nil =>
    rw [firstImageUrl, hc] at htr
    simp [optTruthy] at htr
  | cons cand rest =>
    cases hcu : cand.url with
    | none =>
      rw [firstImageUrl, hc] at htr
      simp [hcu, optTruthy] at htr
    | some u =>
      have hune : u ≠ "" := by
        rw [firstImageUrl, hc] at htr
        simp only [List.head?_cons, Option.some_bind, hcu, optTruthy] at htr
        simpa using htr
      have hext : extract_image_data node 1 1 =
          some (.image (some u) (node.pk.getD (toString 1))
            cand.width cand.height 1 1) := by
        rw [extract_image_data, hc]
        simp [hcu]
      have hproc : processPost node 1 s =
          ([MediaDescriptor.image (some u) (node.pk.getD (toString 1))
            cand.width cand.height 1 1], []) := by
        rw [processPost]
        simp only [hdet]
        rw [hext]
        simp
      have himg : (extract_media_from_posts [⟨node⟩] s).images =
          [MediaDescriptor.image (some u) (node.pk.getD (toString 1))
            cand.width cand.height 1 1] := by
        rw [extract_media_from_posts]
        simp only [extractLoop, hproc]
        simp [remove_duplicates, removeDupAux, MediaDescriptor.url, hune]
      rw [himg]
      simp

/-- Witness for C10 at a concrete node lacking `media_type`. -/
theorem missing_media_type_treated_as_image_witness :
    detect_media_type (noTypeNode "u") = "image" ∧
    (extract_media_from_posts [⟨noTypeNode "u"⟩] sAll).images ≠ [] := by
  have h := missing_media_type_treated_as_image (noTypeNode "u") sAll rfl
  exact ⟨h.1, h.2 (by decide)⟩

/-! Length bounds for the extraction pipeline. -/

/-- The carousel loop emits at most one descriptor per child. -/
lemma carouselLoop_length_le (s : VideoSettings) (p : Nat)
    (children : List Node) (mi : Nat) :
    (carouselLoop s p children mi).1.length +
      (carouselLoop s p children mi).2.length ≤ children.length := by
  induction children generalizing mi with
  | nil => simp [carouselLoop]
  | cons c cs ih =>
    have htail := ih (mi + 1)
    simp only [carouselLoop, List.length_cons]
    split
    · split
      · simp only [List.length_cons]
        omega
      · omega
    · split
      · split
        · simp only [List.length_cons]
          omega
        · omega
      · omega

/-- A single post contributes at most its carousel-expanded media count. -/
lemma processPost_length_le (node : Node) (p : Nat) (s : VideoSettings) :
    (processPost node p s).1.length + (processPost node p s).2.length ≤
      (if detect_media_type node = "carousel"
       then node.carousel_media.length else 1) := by
  by_cases hcar : detect_media_type node = "carousel"
  · rw [if_pos hcar]
    simp only [processPost, hcar]
    simp only [show ("carousel" = "image") = False by simp,
      show ("carousel" = "video") = False by simp, if_false, false_and]
    simp only [if_pos rfl, if_true]
    exact carouselLoop_length_le s p node.carousel_media 1
  · rw [if_neg hcar]
    simp only [processPost, if_neg hcar]
    split
    all_goals try split
    all_goals try split
    all_goals simp

/-- The whole post loop emits at most the carousel-expanded media count of the
input. -/
lemma extractLoop_length_le (s : VideoSettings) (posts : List RawPost)
    (idx : Nat) :
    (extractLoop s posts idx).1.length + (extractLoop s posts idx).2.length ≤
      expandedCount posts := by
  induction posts generalizing idx with
  | nil => simp [extractLoop, expandedCount]
  | cons post ps ih =>
    have h1 := processPost_length_le post.node idx s
    have h2 := ih (idx + 1)
    simp only [expandedCount, List.map_cons, List.sum_cons] at h2 ⊢
    simp only [extractLoop, List.length_append]
    omega

/-- C3: every descriptor in either list of the manifest returned by
`extract_media_from_posts` carries a non-empty url, and neither list is longer
than the carousel-expanded media count of the input. -/
theorem extract_all_invariants (posts : List RawPost) (s : VideoSettings) :
    (extract_media_from_posts posts s).images.length ≤ expandedCount posts ∧
    (extract_media_from_posts posts s).videos.length ≤ expandedCount posts ∧
    (∀ d ∈ (extract_media_from_posts posts s).images,
      ∃ u, d.url = some u ∧ u ≠ "") ∧
    (∀ d ∈ (extract_media_from_posts posts s).videos,
      ∃ u, d.url = some u ∧ u ≠ "") := by
  have hloop := extractLoop_length_le s posts 1
  have h1 : (extract_media_from_posts posts s).images =
      removeDupAux (extractLoop s posts 1).1 [] := rfl
  have h2 : (extract_media_from_posts posts s).videos =
      removeDupAux (extractLoop s posts 1).2 [] := rfl
  refine ⟨?_, ?_, ?_, ?_⟩
  · rw [h1]
    have hd := length_removeDupAux_le (extractLoop s posts 1).1 []
    omega
  · rw [h2]
    have hd := length_removeDupAux_le (extractLoop s posts 1).2 []
    omega
  · rw [h1]
    intro d hd
    exact mem_removeDupAux_truthy hd
  · rw [h2]
    intro d hd
    exact mem_removeDupAux_truthy hd

/-- Witness for C3 at a concrete mixed carousel input. -/
theorem extract_all_invariants_witness :
    (extract_media_from_posts
      [⟨carouselNode [imageNode "a", videoNode "b"]⟩] sAll).images.length ≤
      expandedCount [⟨carouselNode [imageNode "a", videoNode "b"]⟩] :=
  (extract_all_invariants
    [⟨carouselNode [imageNode "a", videoNode "b"]⟩] sAll).1

/-! Step lemmas for the pagination loop. -/

/-- One loop iteration on a failed request: stop with the accumulator. -/
lemma fetchAux_step_fail (fetch : Nat → Option String → FetchOutcome)
    (r page : Nat) (cursor : Option String) (acc : List RawPost)
    (hb : fetch page cursor = .fail) :
    fetchAux fetch (r + 1) page cursor acc = (acc, 1) := by
  simp only [fetchAux, hb]

/-- One loop iteration on a successful request with no edges: stop with the
accumulator. -/
lemma fetchAux_step_empty (fetch : Nat → Option String → FetchOutcome)
    (r page : Nat) (cursor : Option String) (acc : List RawPost)
    (b : ResponseBody) (hb : fetch page cursor = .ok b)
    (he : b.edges = []) :
    fetchAux fetch (r + 1) page cursor acc = (acc, 1) := by
  simp only [fetchAux, hb, he]
  rfl

/-- One loop iteration on a successful page whose continuation fields deny
another page: append the edges and stop. -/
lemma fetchAux_step_stop (fetch : Nat → Option String → FetchOutcome)
    (r page : Nat) (cursor : Option String) (acc : List RawPost)
    (b : ResponseBody) (hb : fetch page cursor = .ok b)
    (hne : b.edges ≠ [])
    (hstop : b.page_info.has_next_page = false ∨
      cursorFalsy b.page_info.end_cursor = true) :
    fetchAux fetch (r + 1) page cursor acc = (acc ++ b.edges, 1) := by
  have hempty : b.edges.isEmpty = false := List.isEmpty_eq_false.mpr hne
  simp only [fetchAux, hb, hempty]
  rcases hstop with h | h <;> simp [h]

/-- One loop iteration on a successful page whose continuation fields allow
another page: append the edges, advance page and cursor, and recurse. -/
lemma fetchAux_step_continue (fetch : Nat → Option String → FetchOutcome)
    (r page : Nat) (cursor : Option String) (acc : List RawPost)
    (b : ResponseBody) (hb : fetch page cursor = .ok b)
    (hne : b.edges ≠ [])
    (hnext : b.page_info.has_next_page = true)
    (hcf : cursorFalsy b.page_info.end_cursor = false) :
    fetchAux fetch (r + 1) page cursor acc =
      ((fetchAux fetch r (page + 1) b.page_info.end_cursor
          (acc ++ b.edges)).1,
       (fetchAux fetch r (page + 1) b.page_info.end_cursor
          (acc ++ b.edges)).2 + 1) := by
  have hempty : b.edges.isEmpty = false := List.isEmpty_eq_false.mpr hne
  simp only [fetchAux, hb, hempty]
  simp [hnext, hcf]

/-- Under a fetch operation that always succeeds with edges and always allows
continuation, the loop spends all its fuel, one request per unit. -/
lemma fetchAux_count_always_more (fetch : Nat → Option String → FetchOutcome)
    (H : ∀ p c, ∃ b, fetch p c = .ok b ∧ b.edges ≠ [] ∧
      b.page_info.has_next_page = true ∧
      cursorFalsy b.page_info.end_cursor = false) :
    ∀ r page cursor acc, (fetchAux fetch r page cursor acc).2 = r := by
  intro r
  induction r with
  | zero => intro page cursor acc; rfl
  | succ n ih =>
    intro page cursor acc
    obtain ⟨b, hb, hne, hnext, hcf⟩ := H page cursor
    rw [fetchAux_step_continue fetch n page cursor acc b hb hne hnext hcf]
    rw [ih]

/-- C6: under a fetch operation that always succeeds with at least one edge
and always reports `has_next_page = true` with a present (truthy) cursor,
`fetch_user_posts` with `max_pages = n ≥ 1` issues exactly `n` requests and
stops. -/
theorem pagination_respects_max_pages
    (fetch : Nat → Option String → FetchOutcome) (n : Nat) (_hn : 1 ≤ n)
    (H : ∀ p c, ∃ b, fetch p c = .ok b ∧ b.edges ≠ [] ∧
      b.page_info.has_next_page = true ∧
      cursorFalsy b.page_info.end_cursor = false) :
    (fetch_user_posts fetch n).2 = n :=
  fetchAux_count_always_more fetch H n 1 none []

/-- Witness for C6: the always-continuing script with `max_pages = 3` issues
exactly 3 requests. -/
theorem pagination_respects_max_pages_witness :
    (fetch_user_posts alwaysMore 3).2 = 3 := by
  apply pagination_respects_max_pages alwaysMore 3 (by norm_num)
  intro p c
  exact ⟨⟨[⟨imageNode "page"⟩], ⟨true, some "cur"⟩⟩, rfl, by simp, rfl, by decide⟩

/-- C5: when page 1 succeeds and allows continuation and page 2 succeeds with
`has_next_page = false` (or a falsy cursor), `fetch_user_posts` returns
exactly the edges of pages 1 and 2 in order and issues no third request; and
in general, after a successful fetch with edges, the loop continues only when
`has_next_page` is true and the cursor is present. -/
theorem pagination_halts_on_last_page
    (fetch : Nat → Option String → FetchOutcome) (maxPages : Nat)
    (b1 b2 : ResponseBody) (hmax : 2 ≤ maxPages)
    (h1 : fetch 1 none = .ok b1) (h1e : b1.edges ≠ [])
    (h1n : b1.page_info.has_next_page = true)
    (h1c : cursorFalsy b1.page_info.end_cursor = false)
    (h2 : fetch 2 b1.page_info.end_cursor = .ok b2) (h2e : b2.edges ≠ [])
    (hstop : b2.page_info.has_next_page = false ∨
      cursorFalsy b2.page_info.end_cursor = true) :
    fetch_user_posts fetch maxPages = (b1.edges ++ b2.edges, 2) ∧
    (∀ r page cursor acc b, fetch page cursor = .ok b → b.edges ≠ [] →
      (b.page_info.has_next_page = false ∨
        cursorFalsy b.page_info.end_cursor = true) →
      fetchAux fetch (r + 1) page cursor acc = (acc ++ b.edges, 1)) := by
  constructor
  · obtain ⟨m, rfl⟩ : ∃ m, maxPages = m + 2 := ⟨maxPages - 2, by omega⟩
    rw [fetch_user_posts]
    rw [show m + 2 = (m + 1) + 1 from rfl]
    rw [fetchAux_step_continue fetch (m + 1) 1 none [] b1 h1 h1e h1n h1c]
    rw [fetchAux_step_stop fetch m 2 b1.page_info.end_cursor
      ([] ++ b1.edges) b2 h2 h2e hstop]
    simp
  · intro r page cursor acc b hb hne hs
    exact fetchAux_step_stop fetch r page cursor acc b hb hne hs

/-- Witness for C5 at the concrete two-page script: pages 1 and 2 are
returned, the request count is 2. -/
theorem pagination_halts_on_last_page_witness :
    fetch_user_posts twoPageScript 10 =
      ([⟨imageNode "a"⟩, ⟨imageNode "b"⟩], 2) := by
  have h := (pagination_halts_on_last_page twoPageScript 10
    ⟨[⟨imageNode "a"⟩], ⟨true, some "c1"⟩⟩
    ⟨[⟨imageNode "b"⟩], ⟨false, none⟩⟩
    (by norm_num) rfl (by simp) rfl (by decide) rfl (by simp)
    (Or.inl rfl)).1
  simpa using h

/-- The cursor chain after a successful page is that page's `end_cursor`. -/
lemma chainCursor_succ (body : Nat → ResponseBody) (p : Nat) (hp : 1 ≤ p) :
    chainCursor body (p + 1) = (body p).page_info.end_cursor := by
  cases p with
  | zero => omega
  | succ q => rfl

/-- Scripted run: pages `page .. k-1` succeed and continue, page `k` fails or
comes back empty; with enough fuel the loop accumulates exactly the edges of
the successful pages and issues `d + 1` requests (`d = k - page`). -/
lemma fetchAux_script_fail (fetch : Nat → Option String → FetchOutcome)
    (body : Nat → ResponseBody) (k : Nat)
    (Hgood : ∀ j, 1 ≤ j → j < k →
      fetch j (chainCursor body j) = .ok (body j) ∧ (body j).edges ≠ [] ∧
      (body j).page_info.has_next_page = true ∧
      cursorFalsy ((body j).page_info.end_cursor) = false)
    (Hfail : fetch k (chainCursor body k) = .fail ∨
      ∃ b, fetch k (chainCursor body k) = .ok b ∧ b.edges = []) :
    ∀ d page r acc, 1 ≤ page → page + d = k →
      fetchAux fetch (r + (d + 1)) page (chainCursor body page) acc =
        (acc ++ ((List.range' page d).map (fun j => (body j).edges)).flatten,
         d + 1) := by
  intro d
  induction d with
  | zero =>
    intro page r acc hp hpk
    obtain rfl : page = k := by omega
    rcases Hfail with hf | ⟨b, hb, he⟩
    · rw [fetchAux_step_fail fetch r page (chainCursor body page) acc hf]
      simp
    · rw [fetchAux_step_empty fetch r page (chainCursor body page) acc b hb
        he]
      simp
  | succ d ih =>
    intro page r acc hp hpk
    have hlt : page < k := by omega
    obtain ⟨hb, hne, hnext, hcf⟩ := Hgood page hp hlt
    rw [show r + (d + 1 + 1) = (r + (d + 1)) + 1 from rfl]
    rw [fetchAux_step_continue fetch (r + (d + 1)) page
      (chainCursor body page) acc (body page) hb hne hnext hcf]
    rw [← chainCursor_succ body page hp]
    rw [ih (page + 1) r (acc ++ (body page).edges) (by omega) (by omega)]
    simp [List.range'_succ, List.append_assoc]

/-- C7: if pages `1 .. k-1` succeed with edges and permit continuation and the
request for page `k` fails (exception / non-200 status) or yields a malformed
envelope (which reads as no edges), `fetch_user_posts` stops at page `k`
without propagating any failure and returns exactly the edges accumulated from
pages `1 .. k-1`, having issued exactly `k` requests. -/
theorem pagination_absorbs_failures
    (fetch : Nat → Option String → FetchOutcome)
    (body : Nat → ResponseBody) (k maxPages : Nat)
    (hk : 1 ≤ k) (hmax : k ≤ maxPages)
    (Hgood : ∀ j, 1 ≤ j → j < k →
      fetch j (chainCursor body j) = .ok (body j) ∧ (body j).edges ≠ [] ∧
      (body j).page_info.has_next_page = true ∧
      cursorFalsy ((body j).page_info.end_cursor) = false)
    (Hfail : fetch k (chainCursor body k) = .fail ∨
      ∃ b, fetch k (chainCursor body k) = .ok b ∧ b.edges = []) :
    fetch_user_posts fetch maxPages =
      (((List.range' 1 (k - 1)).map (fun j => (body j).edges)).flatten, k) := by
  have h := fetchAux_script_fail fetch body k Hgood Hfail (k - 1) 1
    (maxPages - k) [] (by omega) (by omega)
  rw [fetch_user_posts]
  rw [show maxPages = (maxPages - k) + ((k - 1) + 1) from by omega]
  rw [show (none : Option String) = chainCursor body 1 from rfl]
  rw [h]
  have hkk : (k - 1) + 1 = k := by omega
  simp [hkk]

/-- Witness for C7: a script failing on its first page returns no posts after
exactly one request, with no exception surfaced. -/
theorem pagination_absorbs_failures_witness :
    fetch_user_posts alwaysFail 10 = ([], 1) := by
  have h := pagination_absorbs_failures alwaysFail
    (fun _ => ⟨[], ⟨false, none⟩⟩) 1 10 (by norm_num) (by norm_num)
    (fun j h1 h2 => absurd h2 (by omega)) (Or.inl rfl)
  simpa using h

/-! Per-post behaviour of the extraction loop. -/

/-- A post whose node classifies as `unknown` contributes no descriptors. -/
lemma processPost_unknown (node : Node) (idx : Nat) (s : VideoSettings)
    (hdet : detect_media_type node = "unknown") :
    processPost node idx s = ([], []) := by
  simp only [processPost, hdet]
  simp

/-- An image post with a first candidate yields exactly that candidate's
descriptor. -/
lemma processPost_image_step (node : Node) (idx : Nat) (s : VideoSettings)
    (hdet : detect_media_type node = "image") (c : Candidate)
    (r : List Candidate) (hc : node.image_candidates = c :: r) :
    processPost node idx s =
      ([.image c.url (node.pk.getD (toString idx)) c.width c.height idx 1],
       []) := by
  have hext : extract_image_data node idx 1 =
      some (.image c.url (node.pk.getD (toString idx))
        c.width c.height idx 1) := by
    rw [extract_image_data, hc]
  simp only [processPost, hdet]
  rw [hext]
  simp

/-- A truthy first-candidate url destructures into a nonempty candidate list
headed by a candidate with a nonempty url. -/
lemma truthy_firstImageUrl {node : Node}
    (h : optTruthy (firstImageUrl node) = true) :
    ∃ c r u, node.image_candidates = c :: r ∧ c.url = some u ∧ u ≠ "" ∧
      firstImageUrl node = some u := by
  cases hc : node.image_candidates with
  | nil =>
    rw [firstImageUrl, hc] at h
    simp [optTruthy] at h
  | cons c r =>
    cases hcu : c.url with
    | none =>
      rw [firstImageUrl, hc] at h
      simp [hcu, optTruthy] at h
    | some u =>
      have hfi : firstImageUrl node = some u := by
        rw [firstImageUrl, hc]
        simp [hcu]
      refine ⟨c, r, u, rfl, hcu, ?_, hfi⟩
      rw [hfi] at h
      simpa [optTruthy] using h

/-- C8: a post whose node carries an unrecognized media-type code contributes
zero descriptors and never aborts extraction, and the postIndex counter still
advances: in a 3-post input whose middle post is malformed and whose outer
posts are well-formed image posts with distinct urls, the manifest's images
carry `post_index` 1 and 3. -/
theorem malformed_post_skipped (n1 n2 n3 : Node) (s : VideoSettings)
    (hd1 : detect_media_type n1 = "image")
    (hd2 : detect_media_type n2 = "unknown")
    (hd3 : detect_media_type n3 = "image")
    (hu1 : optTruthy (firstImageUrl n1) = true)
    (hu3 : optTruthy (firstImageUrl n3) = true)
    (hne : firstImageUrl n1 ≠ firstImageUrl n3) :
    (∀ idx, processPost n2 idx s = ([], [])) ∧
    (extract_media_from_posts [⟨n1⟩, ⟨n2⟩, ⟨n3⟩] s).images.map
      MediaDescriptor.post_index = [1, 3] ∧
    (extract_media_from_posts [⟨n1⟩, ⟨n2⟩, ⟨n3⟩] s).videos = [] := by
  obtain ⟨c1, r1, u1, hc1, hcu1, hne1, hf1⟩ := truthy_firstImageUrl hu1
  obtain ⟨c3, r3, u3, hc3, hcu3, hne3, hf3⟩ := truthy_firstImageUrl hu3
  have hp1 := processPost_image_step n1 1 s hd1 c1 r1 hc1
  have hp2 := processPost_unknown n2 2 s hd2
  have hp3 := processPost_image_step n3 3 s hd3 c3 r3 hc3
  rw [hcu1] at hp1
  rw [hcu3] at hp3
  have hus : u3 ≠ u1 := by
    intro h
    exact hne (by rw [hf1, hf3, h])
  have hloop : extractLoop s [⟨n1⟩, ⟨n2⟩, ⟨n3⟩] 1 =
      ([.image (some u1) (n1.pk.getD (toString 1)) c1.width c1.height 1 1,
        .image (some u3) (n3.pk.getD (toString 3)) c3.width c3.height 3 1],
       []) := by
    simp only [extractLoop]
    norm_num
    rw [hp1, hp2, hp3]
    simp
  have himg : (extract_media_from_posts [⟨n1⟩, ⟨n2⟩, ⟨n3⟩] s).images =
      [.image (some u1) (n1.pk.getD (toString 1)) c1.width c1.height 1 1,
       .image (some u3) (n3.pk.getD (toString 3)) c3.width c3.height 3 1] := by
    rw [extract_media_from_posts]
    simp only [hloop]
    simp [remove_duplicates, removeDupAux, MediaDescriptor.url, hne1, hne3,
      hus]
  have hvid : (extract_media_from_posts [⟨n1⟩, ⟨n2⟩, ⟨n3⟩] s).videos = [] := by
    rw [extract_media_from_posts]
    simp only [hloop]
    rfl
  refine ⟨fun idx => processPost_unknown n2 idx s hd2, ?_, hvid⟩
  rw [himg]
  simp [MediaDescriptor.post_index]

/-- Witness for C8 at a concrete 3-post input with a malformed middle post. -/
theorem malformed_post_skipped_witness :
    (extract_media_from_posts
      [⟨imageNode "a"⟩, ⟨unknownNode⟩, ⟨imageNode "b"⟩] sAll).images.map
      MediaDescriptor.post_index = [1, 3] := by
  have h := malformed_post_skipped (imageNode "a") unknownNode
    (imageNode "b") sAll (by decide) (by decide) (by decide) (by decide)
    (by decide) (by decide)
  exact h.2.1

/-! Carousel expansion. -/

/-- A carousel post hands its children to the carousel loop. -/
lemma processPost_carousel (node : Node) (p : Nat) (s : VideoSettings)
    (hdet : detect_media_type node = "carousel") :
    processPost node p s = carouselLoop s p node.carousel_media 1 := by
  simp only [processPost, hdet]
  simp

/-- `kindPositions` lists one position per child of the given kind. -/
lemma kindPositions_length (kind : String) (children : List Node) (i : Nat) :
    (kindPositions kind children i).length =
      (children.filter (fun c => detect_media_type c = kind)).length := by
  induction children generalizing i with
  | nil => rfl
  | cons c cs ih =>
    by_cases h : detect_media_type c = kind
    · simp [kindPositions, List.filter_cons, h, ih]
    · simp [kindPositions, List.filter_cons, h, ih]

/-- The dedup loop keeps a list untouched when every item has a fresh truthy
url and the urls are pairwise distinct. -/
lemma removeDupAux_keeps_all (xs : List MediaDescriptor) (seen : List String)
    (htr : ∀ x ∈ xs, ∃ u, x.url = some u ∧ u ≠ "" ∧ u ∉ seen)
    (hnd : (xs.map MediaDescriptor.url).Nodup) :
    removeDupAux xs seen = xs := by
  induction xs generalizing seen with
  | nil => rfl
  | cons x rest ih =>
    obtain ⟨u, hu, hne, hns⟩ := htr x (List.mem_cons_self x rest)
    simp only [removeDupAux, hu, if_pos (And.intro hne hns)]
    congr 1
    apply ih
    · intro y hy
      obtain ⟨v, hv, hvne, hvs⟩ := htr y (List.mem_cons_of_mem x hy)
      refine ⟨v, hv, hvne, ?_⟩
      intro hmem
      rcases List.mem_cons.mp hmem with rfl | hmem2
      · exact (List.nodup_cons.mp hnd).1
          (by rw [hu]; exact List.mem_map.mpr ⟨y, hy, by rw [hv]⟩)
      · exact hvs hmem2
    · exact (List.nodup_cons.mp hnd).2

/-- Every url a carousel's image children contribute is nonempty, assuming
the image children carry truthy first-candidate urls. -/
lemma mem_carouselImageUrls_ne {children : List Node}
    (himg : ∀ c ∈ children, detect_media_type c = "image" →
      optTruthy (firstImageUrl c) = true) :
    ∀ u ∈ carouselImageUrls children, u ≠ "" := by
  intro u hu
  rw [carouselImageUrls, List.mem_filterMap] at hu
  obtain ⟨c, hc, hf⟩ := hu
  by_cases hd : detect_media_type c = "image"
  · rw [if_pos hd] at hf
    have := himg c hc hd
    rw [hf] at this
    simpa [optTruthy] using this
  · rw [if_neg hd] at hf
    exact absurd hf (by simp)

/-- Every url a carousel's video children contribute is nonempty, assuming
the video children carry truthy selected-rendition urls. -/
lemma mem_carouselVideoUrls_ne {s : VideoSettings} {children : List Node}
    (hvid : ∀ c ∈ children, detect_media_type c = "video" →
      optTruthy (selectedVideoUrl s c) = true) :
    ∀ u ∈ carouselVideoUrls s children, u ≠ "" := by
  intro u hu
  rw [carouselVideoUrls, List.mem_filterMap] at hu
  obtain ⟨c, hc, hf⟩ := hu
  by_cases hd : detect_media_type c = "video"
  · rw [if_pos hd] at hf
    have := hvid c hc hd
    rw [hf] at this
    simpa [optTruthy] using this
  · rw [if_neg hd] at hf
    exact absurd hf (by simp)

/-- A truthy selected-video url destructures into a successful selection whose
rendition bears a nonempty url (forcing a nonempty rendition list). -/
lemma truthy_selectedVideoUrl {s : VideoSettings} {node : Node}
    (h : optTruthy (selectedVideoUrl s node) = true) :
    ∃ bv u, select_best_video_quality node.video_versions s.video_quality =
        some bv ∧ bv.url = some u ∧ u ≠ "" ∧ node.video_versions ≠ [] ∧
      selectedVideoUrl s node = some u := by
  cases hsel : select_best_video_quality node.video_versions s.video_quality
    with
  | none =>
    rw [selectedVideoUrl, hsel] at h
    simp [optTruthy] at h
  | some bv =>
    cases hbu : bv.url with
    | none =>
      rw [selectedVideoUrl, hsel] at h
      simp [hbu, optTruthy] at h
    | some u =>
      have hsu : selectedVideoUrl s node = some u := by
        rw [selectedVideoUrl, hsel]
        simp [hbu]
      have hune : u ≠ "" := by
        rw [hsu] at h
        simpa [optTruthy] using h
      have hnil : node.video_versions ≠ [] := by
        intro hv
        rw [hv, select_best_video_quality, selectLoop_nil] at hsel
        simp at hsel
      exact ⟨bv, u, rfl, hbu, hune, hnil, hsu⟩

/-- The video extractor's output under a successful selection. -/
lemma extract_video_data_eq (node : Node) (p : Nat) (s : VideoSettings)
    (mi : Nat) (hnil : node.video_versions ≠ []) (bv : VideoVersion)
    (hsel : select_best_video_quality node.video_versions s.video_quality =
      some bv) :
    extract_video_data node p s mi =
      some (.video bv.url (node.pk.getD (toString p)) bv.vtype bv.width
        bv.height node.has_audio (node.product_type.getD "feed")
        (node.image_candidates.head?.bind Candidate.url) p mi) := by
  cases hv : node.video_versions with
  | nil => exact absurd hv hnil
  | cons w ws =>
    rw [extract_video_data, hv]
    have hsel2 : select_best_video_quality (w :: ws) s.video_quality =
        some bv := by
      rw [← hv]
      exact hsel
    rw [hsel2]

/-- The carousel loop, characterized: under well-formed children it emits one
image descriptor per image child and one video descriptor per video child, in
child order, with `media_index` equal to the child's 1-based position among
all children, `post_index` equal to the carousel's post index, and urls as
listed by `carouselImageUrls` / `carouselVideoUrls`. -/
lemma carouselLoop_spec (s : VideoSettings) (p : Nat)
    (hdl : s.download_videos = true) :
    ∀ (children : List Node) (mi : Nat),
    (∀ c ∈ children, detect_media_type c = "image" →
      optTruthy (firstImageUrl c) = true) →
    (∀ c ∈ children, detect_media_type c = "video" →
      optTruthy (selectedVideoUrl s c) = true) →
    (carouselLoop s p children mi).1.map MediaDescriptor.media_index =
        kindPositions "image" children mi ∧
    (carouselLoop s p children mi).2.map MediaDescriptor.media_index =
        kindPositions "video" children mi ∧
    (carouselLoop s p children mi).1.map MediaDescriptor.url =
        (carouselImageUrls children).map some ∧
    (carouselLoop s p children mi).2.map MediaDescriptor.url =
        (carouselVideoUrls s children).map some ∧
    (∀ d ∈ (carouselLoop s p children mi).1, d.post_index = p) ∧
    (∀ d ∈ (carouselLoop s p children mi).2, d.post_index = p) := by
  intro children
  induction children with
  | nil =>
    intro mi _ _
    exact ⟨rfl, rfl, rfl, rfl, by simp [carouselLoop], by simp [carouselLoop]⟩
  | cons c cs ih =>
    intro mi himg hvid
    have himg2 := fun x hx => himg x (List.mem_cons_of_mem c hx)
    have hvid2 := fun x hx => hvid x (List.mem_cons_of_mem c hx)
    obtain ⟨h1, h2, h3, h4, h5, h6⟩ := ih (mi + 1) himg2 hvid2
    by_cases hdc : detect_media_type c = "image"
    · obtain ⟨c0, r0, u, hc0, hcu, hune, hfi⟩ :=
        truthy_firstImageUrl (himg c (List.mem_cons_self c cs) hdc)
      have hext : extract_image_data c p mi =
          some (.image c0.url (c.pk.getD (toString p))
            c0.width c0.height p mi) := by
        rw [extract_image_data, hc0]
      have hstep : carouselLoop s p (c :: cs) mi =
          (MediaDescriptor.image c0.url (c.pk.getD (toString p))
              c0.width c0.height p mi :: (carouselLoop s p cs (mi + 1)).1,
           (carouselLoop s p cs (mi + 1)).2) := by
        simp only [carouselLoop, hdc]
        rw [hext]
        simp
      have hciu : carouselImageUrls (c :: cs) = u :: carouselImageUrls cs := by
        simp only [carouselImageUrls, List.filterMap_cons]
        simp [hdc, hfi]
      have hcvu : carouselVideoUrls s (c :: cs) = carouselVideoUrls s cs := by
        simp only [carouselVideoUrls, List.filterMap_cons]
        simp [hdc]
      rw [hstep]
      refine ⟨?_, ?_, ?_, ?_, ?_, h6⟩
      · simp only [List.map_cons, MediaDescriptor.media_index, h1]
        rw [kindPositions, if_pos hdc]
      · simp only [h2]
        rw [kindPositions, if_neg (by simp [hdc])]
      · simp only [List.map_cons, MediaDescriptor.url, h3, hciu, hcu]
      · simp only [h4, hcvu]
      · intro d hd
        rcases List.mem_cons.mp hd with rfl | hd2
        · rfl
        · exact h5 d hd2
    · by_cases hdv : detect_media_type c = "video"
      · obtain ⟨bv, u, hsel, hbu, hune, hnil, hsu⟩ :=
          truthy_selectedVideoUrl (hvid c (List.mem_cons_self c cs) hdv)
        have hext := extract_video_data_eq c p s mi hnil bv hsel
        have hstep : carouselLoop s p (c :: cs) mi =
            ((carouselLoop s p cs (mi + 1)).1,
             MediaDescriptor.video bv.url (c.pk.getD (toString p)) bv.vtype
                bv.width bv.height c.has_audio (c.product_type.getD "feed")
                (c.image_candidates.head?.bind Candidate.url) p mi ::
              (carouselLoop s p cs (mi + 1)).2) := by
          simp only [carouselLoop, hdc, hdv, hdl]
          rw [hext]
          simp
        have hciu : carouselImageUrls (c :: cs) = carouselImageUrls cs := by
          simp only [carouselImageUrls, List.filterMap_cons]
          simp [hdc]
        have hcvu : carouselVideoUrls s (c :: cs) =
            u :: carouselVideoUrls s cs := by
          simp only [carouselVideoUrls, List.filterMap_cons]
          simp [hdv, hsu]
        rw [hstep]
        refine ⟨?_, ?_, ?_, ?_, h5, ?_⟩
        · simp only [h1]
          rw [kindPositions, if_neg hdc]
        · simp only [List.map_cons, MediaDescriptor.media_index, h2]
          rw [kindPositions, if_pos hdv]
        · simp only [h3, hciu]
        · simp only [List.map_cons, MediaDescriptor.url, h4, hcvu, hbu]
        · intro d hd
          rcases List.mem_cons.mp hd with rfl | hd2
          · rfl
          · exact h6 d hd2
      · have hstep : carouselLoop s p (c :: cs) mi =
            carouselLoop s p cs (mi + 1) := by
          simp only [carouselLoop]
          simp [hdc, hdv]
        have hciu : carouselImageUrls (c :: cs) = carouselImageUrls cs := by
          simp only [carouselImageUrls, List.filterMap_cons]
          simp [hdc]
        have hcvu : carouselVideoUrls s (c :: cs) = carouselVideoUrls s cs := by
          simp only [carouselVideoUrls, List.filterMap_cons]
          simp [hdv]
        rw [hstep]
        refine ⟨?_, ?_, ?_, ?_, h5, h6⟩
        · simp only [h1]
          rw [kindPositions, if_neg hdc]
        · simp only [h2]
          rw [kindPositions, if_neg hdv]
        · simp only [h3, hciu]
        · simp only [h4, hcvu]

/-- C1 counterexample: a carousel with children [video, candidate-less image,
image] has N = 2 image children, yet yields a single image descriptor, and
its `media_index` is 3 (the child's position among all children), not a value
in 1..N — so the claimed "exactly N image descriptors with mediaIndex 1..N"
fails on both counts. -/
theorem carousel_expansion_cex :
    ((carouselNode [videoNode "vb", emptyImageNode, imageNode "ia"]
        ).carousel_media.filter
      (fun c => detect_media_type c = "image")).length = 2 ∧
    (extract_media_from_posts
      [⟨carouselNode [videoNode "vb", emptyImageNode, imageNode "ia"]⟩]
      sAll).images.length = 1 ∧
    (extract_media_from_posts
      [⟨carouselNode [videoNode "vb", emptyImageNode, imageNode "ia"]⟩]
      sAll).images.map MediaDescriptor.media_index = [3] := by
  refine ⟨by decide, by decide, by decide⟩

/-- C1 (amended): a single carousel post whose image children each carry a
truthy first-candidate url, whose video children each select a rendition with
a truthy url (downloadVideos = true), and whose contributed urls are pairwise
distinct per list, yields exactly one image descriptor per image child and
one video descriptor per video child, in child order; every descriptor has
`post_index` 1, and each descriptor's `media_index` is the child's 1-based
position among all carousel children (not a separate 1..N / 1..M
renumbering). -/
theorem carousel_expansion_amended (children : List Node)
    (s : VideoSettings) (hdl : s.download_videos = true)
    (himg : ∀ c ∈ children, detect_media_type c = "image" →
      optTruthy (firstImageUrl c) = true)
    (hvid : ∀ c ∈ children, detect_media_type c = "video" →
      optTruthy (selectedVideoUrl s c) = true)
    (hnodupi : (carouselImageUrls children).Nodup)
    (hnodupv : (carouselVideoUrls s children).Nodup) :
    (extract_media_from_posts [⟨carouselNode children⟩] s).images.length =
      (children.filter (fun c => detect_media_type c = "image")).length ∧
    (extract_media_from_posts [⟨carouselNode children⟩] s).videos.length =
      (children.filter (fun c => detect_media_type c = "video")).length ∧
    (extract_media_from_posts [⟨carouselNode children⟩] s).images.map
      MediaDescriptor.media_index = kindPositions "image" children 1 ∧
    (extract_media_from_posts [⟨carouselNode children⟩] s).videos.map
      MediaDescriptor.media_index = kindPositions "video" children 1 ∧
    (∀ d ∈ (extract_media_from_posts [⟨carouselNode children⟩] s).images,
      d.post_index = 1) ∧
    (∀ d ∈ (extract_media_from_posts [⟨carouselNode children⟩] s).videos,
      d.post_index = 1) := by
  obtain ⟨h1, h2, h3, h4, h5, h6⟩ :=
    carouselLoop_spec s 1 hdl children 1 himg hvid
  have hsingle : extractLoop s [⟨carouselNode children⟩] 1 =
      ((carouselLoop s 1 children 1).1, (carouselLoop s 1 children 1).2) := by
    simp only [extractLoop]
    rw [processPost_carousel (carouselNode children) 1 s rfl]
    simp [carouselNode, Node.carousel_media]
  have himgs : (extract_media_from_posts [⟨carouselNode children⟩] s).images =
      (carouselLoop s 1 children 1).1 := by
    show remove_duplicates (extractLoop s [⟨carouselNode children⟩] 1).1 =
      (carouselLoop s 1 children 1).1
    rw [hsingle]
    apply removeDupAux_keeps_all
    · intro x hx
      have hmem : x.url ∈
          (carouselLoop s 1 children 1).1.map MediaDescriptor.url :=
        List.mem_map_of_mem _ hx
      rw [h3] at hmem
      obtain ⟨u, hu, heq⟩ := List.mem_map.mp hmem
      exact ⟨u, heq.symm, mem_carouselImageUrls_ne himg u hu, by simp⟩
    · rw [h3]
      exact List.Nodup.map (Option.some_injective _) hnodupi
  have hvids : (extract_media_from_posts [⟨carouselNode children⟩] s).videos =
      (carouselLoop s 1 children 1).2 := by
    show remove_duplicates (extractLoop s [⟨carouselNode children⟩] 1).2 =
      (carouselLoop s 1 children 1).2
    rw [hsingle]
    apply removeDupAux_keeps_all
    · intro x hx
      have hmem : x.url ∈
          (carouselLoop s 1 children 1).2.map MediaDescriptor.url :=
        List.mem_map_of_mem _ hx
      rw [h4] at hmem
      obtain ⟨u, hu, heq⟩ := List.mem_map.mp hmem
      exact ⟨u, heq.symm, mem_carouselVideoUrls_ne hvid u hu, by simp⟩
    · rw [h4]
      exact List.Nodup.map (Option.some_injective _) hnodupv
  refine ⟨?_, ?_, ?_, ?_, ?_, ?_⟩
  · rw [himgs, ← kindPositions_length "image" children 1, ← h1,
      List.length_map]
  · rw [hvids, ← kindPositions_length "video" children 1, ← h2,
      List.length_map]
  · rw [himgs, h1]
  · rw [hvids, h2]
  · rw [himgs]
    exact h5
  · rw [hvids]
    exact h6

/-- Witness for C1's amended statement at a concrete mixed carousel
[image, video, image]: image descriptors get media indexes 1 and 3, the video
descriptor gets 2. -/
theorem carousel_expansion_amended_witness :
    (extract_media_from_posts
      [⟨carouselNode [imageNode "ia", videoNode "vb", imageNode "ic"]⟩]
      sAll).images.map MediaDescriptor.media_index = [1, 3] ∧
    (extract_media_from_posts
      [⟨carouselNode [imageNode "ia", videoNode "vb", imageNode "ic"]⟩]
      sAll).videos.map MediaDescriptor.media_index = [2] := by
  have h := carousel_expansion_amended
    [imageNode "ia", videoNode "vb", imageNode "ic"] sAll rfl
    (by decide) (by decide) (by decide) (by decide)
  exact ⟨by rw [h.2.2.1]; decide, by rw [h.2.2.2.1]; decide⟩
